import Mathlib

/-!
# Lead/lag correlation engine: shallow embedding and verification

This file embeds the lead/lag correlation engine of the repository
(`src/analysis.py`, the alignment/exclusion steps of `src/main.py` and
`src/app.py`) into Lean and proves properties of the embedded code.

Numeric conventions of the embedding:
* machine floats are embedded as exact rationals (`ℚ`);
* a pandas `NaN` cell is `Option.none`;
* a Pearson correlation value is represented by its *square* `r²`,
  which is rational (`r` itself involves a square root); a cell of a
  rolling/cumulative matrix is therefore `Option ℚ` holding the squared
  correlation, with `none` exactly where pandas produces `NaN`.  Every
  claim treated here depends only on definedness, on which rows feed the
  computation, or on `r²` itself, so this representation is lossless.
* The analysis functions are called (main.py:284,301,311; app.py:200-201)
  on the aligned frame *after* `dropna`, so the frame they receive is
  dense: the only missing values during scoring come from the boundary
  of `Series.shift`.  The embedded frame type is therefore a list of
  fully populated `(Leading, Target)` rows.
-/

namespace RegressionProj

/-- A dense aligned frame: one `(Leading, Target)` row per timestamp on the
regular grid, in time order.  Mirrors `df_analysis` after `dropna()`
(main.py:261-268, app.py:177-181). -/
abbrev Frame := List (ℚ × ℚ)

/-- Embeds `pandas.Series.shift(s)` (positional shift on a common index,
`analysis.py:30,85`): for `s ≥ 0` the first `s` cells become missing and the
last `s` values fall off the end; for `s < 0` symmetrically.  Length is
preserved; nothing wraps around and nothing is duplicated. -/
def shiftList (s : ℤ) (xs : List (Option ℚ)) : List (Option ℚ) :=
  if 0 ≤ s then
    List.replicate (min s.toNat xs.length) none ++ xs.take (xs.length - s.toNat)
  else
    xs.drop s.natAbs ++ List.replicate (min s.natAbs xs.length) none

/-- Keep the rows of a two-column view where both cells are present; embeds
`pd.DataFrame({...}).dropna()` on a two-column frame (`analysis.py:31`). -/
def pairedOf : List (Option ℚ × Option ℚ) → List (ℚ × ℚ)
  | [] => []
  | (some a, some b) :: l => (a, b) :: pairedOf l
  | (none, _) :: l => pairedOf l
  | (some _, none) :: l => pairedOf l

/-- Pair two option-valued columns and keep fully populated rows. -/
def pairedRows (la lb : List (Option ℚ)) : List (ℚ × ℚ) :=
  pairedOf (la.zip lb)

/-- The quantity `n·Σxy − Σx·Σy`: the covariance of the points scaled by `n²`
(the scale cancels in `r²`). -/
def covS (pts : List (ℚ × ℚ)) : ℚ :=
  (pts.length : ℚ) * (pts.map fun p => p.1 * p.2).sum
    - (pts.map fun p => p.1).sum * (pts.map fun p => p.2).sum

/-- The quantity `n·Σx² − (Σx)²`: the variance of the first coordinates scaled by `n²`. -/
def varxS (pts : List (ℚ × ℚ)) : ℚ :=
  (pts.length : ℚ) * (pts.map fun p => p.1 ^ 2).sum
    - (pts.map fun p => p.1).sum ^ 2

/-- The quantity `n·Σy² − (Σy)²`: the variance of the second coordinates scaled by `n²`. -/
def varyS (pts : List (ℚ × ℚ)) : ℚ :=
  (pts.length : ℚ) * (pts.map fun p => p.2 ^ 2).sum
    - (pts.map fun p => p.2).sum ^ 2

/-- The squared Pearson correlation of a list of paired observations, embedding
`temp_df['Shifted_Leading'].corr(temp_df['Target']) ** 2` guarded by the
`len(temp_df) < 2` check (`analysis.py:33-37`).  `none` models pandas `NaN`:
fewer than 2 rows, or zero variance in either column (correlation of a
constant series is `NaN` in pandas). -/
def corrSq (pts : List (ℚ × ℚ)) : Option ℚ :=
  if pts.length < 2 then none
  else if varxS pts = 0 ∨ varyS pts = 0 then none
  else some (covS pts ^ 2 / (varxS pts * varyS pts))

/-- Consecutive integers `lo, lo+1, …` of the given length (Python `range`
restricted to step 1). -/
def intRange (lo : ℤ) : ℕ → List ℤ
  | 0 => []
  | n + 1 => lo :: intRange (lo + 1) n

/-- Embeds `range(-max_shift, max_shift + 1)` (`analysis.py:24,82`): empty when
`max_shift < 0`, else `-max_shift, …, max_shift`. -/
def shiftsToTest (m : ℤ) : List ℤ :=
  intRange (-m) (2 * m + 1).toNat

/-- The Leading column of a frame, as an option-valued column. -/
def leadCol (df : Frame) : List (Option ℚ) := df.map fun r => some r.1

/-- The Target column of a frame, as an option-valued column. -/
def targetCol (df : Frame) : List (Option ℚ) := df.map fun r => some r.2

/-- The per-shift static table built by the loop of `analysis.py:29-41`:
for each candidate shift, the squared Pearson correlation of the shifted
Leading column against the Target column over the fully populated rows. -/
def resultsTable (df : Frame) (m : ℤ) : List (ℤ × Option ℚ) :=
  (shiftsToTest m).map fun s =>
    (s, corrSq (pairedRows (shiftList s (leadCol df)) (targetCol df)))

/-- The `(Shift, R_Squared)` entries of the table whose `R_Squared` is not
missing, in table order (the non-null entries `idxmax` ranges over). -/
def definedEntries : List (ℤ × Option ℚ) → List (ℤ × ℚ)
  | [] => []
  | (s, some v) :: l => (s, v) :: definedEntries l
  | (_, none) :: l => definedEntries l

/-- The first entry of the list whose value equals `M`, if any. -/
def findFirstEq : List (ℤ × ℚ) → ℚ → Option ℤ
  | [], _ => none
  | p :: l, M => if p.2 = M then some p.1 else findFirstEq l M

/-- Embeds `Series.idxmax` on the `R_Squared` column followed by the `Shift`
lookup (`analysis.py:47-48`): skip missing values, find the maximum among the
defined ones, and return the shift of its *first* occurrence in table order.
`none` when every value is missing (the `isnull().all()` branch,
`analysis.py:43-45`). -/
def firstIdxMax (l : List (ℤ × Option ℚ)) : Option ℤ :=
  match definedEntries l with
  | [] => none
  | h :: t => findFirstEq (h :: t) (t.foldl (fun a p => max a p.2) h.2)

/-- Embeds `find_optimal_lead_lag(df, max_shift)` (`analysis.py:4-52`).
The outer `Option` is `none` when the Python function raises
(`min()` of the empty shift range at `analysis.py:27` for `max_shift < 0`).
Otherwise the result is `(best_shift, r2_results)` where `best_shift` is
`none` in the `isnull().all()` branch (the function returns
`None, r2_results_df`) and the per-shift table is returned in both cases. -/
def find_optimal_lead_lag (df : Frame) (max_shift : ℤ) :
    Option (Option ℤ × List (ℤ × Option ℚ)) :=
  if max_shift < 0 then none
  else some (firstIdxMax (resultsTable df max_shift), resultsTable df max_shift)

/-- Embeds `int(window * 0.9)` (`analysis.py:88`): truncation, i.e. the floor
of `0.9·window`, *not* the ceiling. -/
def minPeriodsRequired (w : ℕ) : ℕ := 9 * w / 10

/-- The two shifted columns of a frame zipped into rows: row `i` is
`(shifted Leading at i, Target at i)`. -/
def shiftedPairs (df : Frame) (s : ℤ) : List (Option ℚ × Option ℚ) :=
  (shiftList s (leadCol df)).zip (targetCol df)

/-- The fully populated rows among the trailing `w`-row window ending at
position `t` (inclusive) of the shifted frame; the window is truncated at the
start of the series, as in pandas rolling windows. -/
def windowPairs (df : Frame) (s : ℤ) (w t : ℕ) : List (ℚ × ℚ) :=
  pairedOf (((shiftedPairs df s).take (t + 1)).drop (t + 1 - w))

/-- The fully populated rows among positions `0..t` of the shifted frame:
the expanding window from the first timestamp through `t` inclusive. -/
def cumPairs (df : Frame) (s : ℤ) (t : ℕ) : List (ℚ × ℚ) :=
  pairedOf ((shiftedPairs df s).take (t + 1))

/-- One cell of the rolling matrix: embeds
`shifted.rolling(window=w, min_periods=int(w*0.9)).corr(target)` at position
`t` (`analysis.py:85-89`).  `none` when fewer than `min_periods` fully
populated rows exist in the trailing window, or when the correlation itself
is `NaN` (fewer than 2 rows or zero variance). -/
def rollingCell (df : Frame) (s : ℤ) (w t : ℕ) : Option ℚ :=
  if minPeriodsRequired w ≤ (windowPairs df s w t).length then
    corrSq (windowPairs df s w t)
  else none

/-- Embeds `calculate_rolling_correlations(df, max_shift, window)`
(`analysis.py:55-108`): `none` for `window ≤ 1` or an empty frame (the
`return None` guards at `analysis.py:71-76`), else one column per shift in
`-max_shift..max_shift`, one row per timestamp. -/
def calculate_rolling_correlations (df : Frame) (max_shift window : ℤ) :
    Option (List (ℤ × List (Option ℚ))) :=
  if window ≤ 1 then none
  else if df.isEmpty then none
  else some ((shiftsToTest max_shift).map fun s =>
    (s, (List.range df.length).map fun t => rollingCell df s window.toNat t))

/-- One cell of the cumulative matrix.

Modelled from the spec: `calculate_cumulative_correlations` is imported from
`analysis` by `main.py:11` and `app.py:5` but its definition is not under
`src/`; only its callers are.  Spec §4.5: "identical to the Rolling Tracker
except the window is expanding from the first timestamp through `t` inclusive
(not a fixed trailing width), and the minimum-observations threshold is a
constant 2 (not window-relative)."  §3: "for the Cumulative matrix, a cell is
defined once at least 2 paired observations have occurred from the start of
the series through that timestamp."  The correlation itself has the numeric
semantics of §4.3 (zero variance is undefined, as in pandas). -/
def cumulativeCell (df : Frame) (s : ℤ) (t : ℕ) : Option ℚ :=
  if 2 ≤ (cumPairs df s t).length then corrSq (cumPairs df s t) else none

/-- Modelled from the spec: the Cumulative Correlation Tracker
(`calculate_cumulative_correlations`, missing from `src/`), §4.5: one column
per shift in the symmetric range, one row per timestamp of the aligned frame,
each cell the expanding-window correlation through that timestamp. -/
def calculate_cumulative_correlations (df : Frame) (max_shift : ℤ) :
    List (ℤ × List (Option ℚ)) :=
  (shiftsToTest max_shift).map fun s =>
    (s, (List.range df.length).map fun t => cumulativeCell df s t)

/-- The selection rule in the spec's own words (§4.3), for comparison with the
code: "the shift with the maximum defined `R²`; ties broken by preferring the
smallest absolute shift, then the smallest (most negative) shift value if
still tied." -/
def specTieBreakBestShift (l : List (ℤ × Option ℚ)) : Option ℤ :=
  match definedEntries l with
  | [] => none
  | h :: t =>
    some ((t.foldl (fun acc p =>
      if acc.2 < p.2
          ∨ (p.2 = acc.2 ∧ (p.1.natAbs < acc.1.natAbs
              ∨ (p.1.natAbs = acc.1.natAbs ∧ p.1 < acc.1))) then p
      else acc) h).1)

/-! ## Raw series, frequency alignment (main.py / app.py) and exclusion -/

/-- A raw time series: (timestamp, value) pairs in increasing time order.
Timestamps are abstracted as integers on some fine grid (e.g. months or days
since an epoch); values are exact rationals. -/
abbrev Series := List (ℤ × ℚ)

/-- A calendar interpreting pandas frequency strings on the timestamp grid:
`periodId f t` is the index of the `f`-period containing timestamp `t`, and
`periodLabel f b` is the grid timestamp labelling period `b` (the resampled
grid point pandas assigns to that bin). -/
structure Calendar where
  periodId : String → ℤ → ℤ
  periodLabel : String → ℤ → ℤ

/-- The characters before the first `'-'`: `freq_str.split('-')[0]`. -/
def baseCodeChars : List Char → List Char
  | [] => []
  | c :: rest => if c = '-' then [] else c :: baseCodeChars rest

/-- Embeds `get_base_code` (app.py:152-154): `freq_str.split('-')[0]` with
trailing `'S'` characters stripped (`rstrip('S')`). -/
def getBaseCode (f : String) : String :=
  String.mk ((baseCodeChars f.toList).reverse.dropWhile (fun c => c = 'S')).reverse

/-- Embeds `freq.upper().startswith(c)` for a single upper-case letter `c`
(main.py:182-185): the first character, upper-cased, equals `c`. -/
def upperStartsWith (f : String) (c : Char) : Bool :=
  match f.toList.map Char.toUpper with
  | [] => false
  | d :: _ => d = c

/-- Embeds the `freq_order` dictionary lookup (app.py:151,158-159):
`{'D': 1, 'B': 2, 'W': 3, 'M': 4, 'Q': 5, 'A': 6}.get(base)`. -/
def freqOrder (b : String) : Option ℕ :=
  if b = "D" then some 1
  else if b = "B" then some 2
  else if b = "W" then some 3
  else if b = "M" then some 4
  else if b = "Q" then some 5
  else if b = "A" then some 6
  else none

/-- Embeds `series.resample(freq).last()` restricted to the bins that contain
at least one observation (empty bins yield `NaN` rows which the subsequent
`dropna` removes; they are not materialised here): for each period occurring
in the source, in order of first occurrence, emit the period's grid label
paired with the last observation falling in that period. -/
def resampleLast (pid plabel : ℤ → ℤ) (s : Series) : Series :=
  ((s.map fun p => pid p.1).foldl
      (fun acc b => if b ∈ acc then acc else acc ++ [b]) []).filterMap
    fun b => ((s.filter fun p => decide (pid p.1 = b)).getLast?).map
      fun q => (plabel b, q.2)

/-- Embeds the frequency-alignment step of the GUI (app.py:143-173): if both
frequencies are detected and differ, compare the ranks of their base codes;
the higher-frequency (lower-rank) series is resampled onto the other's grid
with `.resample(...).last()`; if either base code is not in the rank table, or
the ranks are equal, no resampling happens. -/
def appAlign (cal : Calendar) (freqLead freqTarget : Option String)
    (lead target : Series) : Series × Series :=
  match freqLead, freqTarget with
  | some fl, some ft =>
    if fl ≠ ft then
      match freqOrder (getBaseCode fl), freqOrder (getBaseCode ft) with
      | some rl, some rt =>
        if rl < rt then
          (resampleLast (cal.periodId ft) (cal.periodLabel ft) lead, target)
        else if rt < rl then
          (lead, resampleLast (cal.periodId fl) (cal.periodLabel fl) target)
        else (lead, target)
      | _, _ => (lead, target)
    else (lead, target)
  | _, _ => (lead, target)

/-- Embeds `pd.tseries.frequencies.to_offset(f).nanos` (main.py:208-209):
defined only for fixed-duration offsets (calendar days, weeks); business
days, months, quarters and years have no fixed nanosecond length and raise
`ValueError`, embedded as `none`. -/
def nanos (f : String) : Option ℤ :=
  let b := getBaseCode f
  if b = "D" then some 86400000000000
  else if b = "W" then some 604800000000000
  else none

/-- Embeds the frequency-alignment step of the CLI (main.py:178-252): an
explicit weekly-vs-monthly special case resamples the weekly series to the
hardcoded month-start grid `'MS'`; otherwise frequencies are compared by
`to_offset(...).nanos`, and the `ValueError` raised for non-fixed offsets is
caught (main.py:242-247), keeping both series unchanged. -/
def mainAlign (cal : Calendar) (freqLead freqTarget : Option String)
    (lead target : Series) : Series × Series :=
  match freqLead, freqTarget with
  | some fl, some ft =>
    if fl ≠ ft then
      if upperStartsWith fl 'W' && upperStartsWith ft 'M' then
        (resampleLast (cal.periodId "MS") (cal.periodLabel "MS") lead, target)
      else if upperStartsWith ft 'W' && upperStartsWith fl 'M' then
        (lead, resampleLast (cal.periodId "MS") (cal.periodLabel "MS") target)
      else
        match nanos fl, nanos ft with
        | some nl, some nt =>
          if nt < nl then
            (lead, resampleLast (cal.periodId fl) (cal.periodLabel fl) target)
          else if nl < nt then
            (resampleLast (cal.periodId ft) (cal.periodLabel ft) lead, target)
          else (lead, target)
        | _, _ => (lead, target)
    else (lead, target)
  | _, _ => (lead, target)

/-- Embeds the GUI exclusion filter (app.py:126-127): keep exactly the rows
whose timestamp is *not* in the closed interval `[a, b]`
(`series[~((series.index >= start) & (series.index <= end))]`). -/
def appExcludeFilter (a b : ℤ) (s : Series) : Series :=
  s.filter fun p => decide (¬ (a ≤ p.1 ∧ p.1 ≤ b))

/-- Embeds the CLI's treatment of `--exclude-period` (main.py): the argument
is parsed into `args.exclude_period` (main.py:48-55) and printed
(main.py:104-105,124-125), but between `load_data` (main.py:130) and the
analysis calls (main.py:284-315) no filtering by the excluded periods is ever
applied — the loaded series reach the aligner unchanged. -/
def mainApplyExclusions (periods : List (ℤ × ℤ)) (s : Series) : Series := s

/-! ## Concrete fixtures used by counterexamples and witnesses -/

/-- Leading `1,2,3,4` against Target `5,10,20,30`: the static table ties at
`R² = 1` for shifts `-2`, `1` and `2`. -/
def df4 : Frame := [(1, 5), (2, 10), (3, 20), (4, 30)]

/-- A small 3-row frame with no exact collinearity. -/
def df1 : Frame := [(1, 2), (2, 3), (3, 5)]

/-- A 12-row dense frame. -/
def df12 : Frame :=
  [(0, 0), (1, 1), (2, 2), (3, 3), (4, 4), (5, 5), (6, 6), (7, 7), (8, 8),
    (9, 9), (10, 10), (11, 11)]

/-- A 2-row frame whose Leading column is constant. -/
def df2 : Frame := [(5, 1), (5, 2)]

/-- A single-row frame: every shift leaves fewer than 2 paired rows. -/
def dfOne : Frame := [(1, 1)]

/-- Calendar on a months-since-epoch grid: monthly periods are the timestamps
themselves; `Q-DEC` quarters group three consecutive months, labelled by the
quarter-end month. -/
def calMQ : Calendar where
  periodId := fun f t => if f = "Q-DEC" then t.fdiv 3 else t
  periodLabel := fun f b => if f = "Q-DEC" then 3 * b + 2 else b

/-- A monthly series: months 0,1,2. -/
def lmSeries : Series := [(0, 1), (1, 2), (2, 3)]

/-- A quarterly series on quarter-end months 2 and 5. -/
def tqSeries : Series := [(2, 10), (5, 11)]

/-- A daily-grid series with one row inside the exclusion interval `[59,120]`. -/
def dSeries : Series := [(50, 1), (90, 7), (130, 3)]

/-! ## Helper lemmas about the embedded primitives -/

@[simp]
theorem pairedOf_nil : pairedOf [] = [] := rfl

@[simp]
theorem pairedOf_cons_some_some (a b : ℚ) (l : List (Option ℚ × Option ℚ)) :
    pairedOf ((some a, some b) :: l) = (a, b) :: pairedOf l := rfl

@[simp]
theorem pairedOf_cons_none_left (ob : Option ℚ) (l : List (Option ℚ × Option ℚ)) :
    pairedOf ((none, ob) :: l) = pairedOf l := by
  cases ob <;> rfl

@[simp]
theorem pairedOf_cons_none_right (oa : Option ℚ) (l : List (Option ℚ × Option ℚ)) :
    pairedOf ((oa, none) :: l) = pairedOf l := by
  cases oa <;> rfl

theorem pairedRows_nil_left (lb : List (Option ℚ)) : pairedRows [] lb = [] := by
  unfold pairedRows
  rw [List.zip_nil_left]
  rfl

theorem pairedRows_nil_right (la : List (Option ℚ)) : pairedRows la [] = [] := by
  unfold pairedRows
  rw [List.zip_nil_right]
  rfl

theorem pairedRows_rep_none_left (j : ℕ) (A B : List (Option ℚ)) :
    pairedRows (List.replicate j none ++ A) B = pairedRows A (B.drop j) := by
  induction j generalizing B with
  | zero => simp
  | succ k ih =>
    cases B with
    | nil => rw [List.drop_nil, pairedRows_nil_right, pairedRows_nil_right]
    | cons b bs =>
      rw [List.replicate_succ, List.cons_append, List.drop_succ_cons, ← ih]
      unfold pairedRows
      rw [List.zip_cons_cons, pairedOf_cons_none_left]

theorem pairedRows_rep_none_all (j : ℕ) (B : List (Option ℚ)) :
    pairedRows (List.replicate j none) B = [] := by
  induction j generalizing B with
  | zero => exact pairedRows_nil_left B
  | succ k ih =>
    cases B with
    | nil => exact pairedRows_nil_right _
    | cons b bs =>
      rw [List.replicate_succ]
      unfold pairedRows
      rw [List.zip_cons_cons, pairedOf_cons_none_left]
      exact ih bs

theorem pairedRows_append_rep_right (A : List (Option ℚ)) (j : ℕ)
    (B : List (Option ℚ)) :
    pairedRows (A ++ List.replicate j none) B = pairedRows A B := by
  induction A generalizing B with
  | nil =>
    rw [List.nil_append, pairedRows_rep_none_all, pairedRows_nil_left]
  | cons a t ih =>
    cases B with
    | nil => rw [pairedRows_nil_right, pairedRows_nil_right]
    | cons b bs =>
      rw [List.cons_append]
      unfold pairedRows
      rw [List.zip_cons_cons, List.zip_cons_cons]
      cases a with
      | none => rw [pairedOf_cons_none_left, pairedOf_cons_none_left]; exact ih bs
      | some av =>
        cases b with
        | none => rw [pairedOf_cons_none_right, pairedOf_cons_none_right]; exact ih bs
        | some bv =>
          rw [pairedOf_cons_some_some, pairedOf_cons_some_some]
          exact congrArg _ (ih bs)

theorem pairedRows_map_some (A B : List ℚ) :
    pairedRows (A.map some) (B.map some) = A.zip B := by
  induction A generalizing B with
  | nil => rw [List.map_nil, pairedRows_nil_left, List.zip_nil_left]
  | cons a t ih =>
    cases B with
    | nil => rw [List.map_nil, pairedRows_nil_right, List.zip_nil_right]
    | cons b bs =>
      rw [List.map_cons, List.map_cons]
      unfold pairedRows
      rw [List.zip_cons_cons, pairedOf_cons_some_some, List.zip_cons_cons]
      exact congrArg _ (ih bs)

theorem intRange_length (n : ℕ) : ∀ lo, (intRange lo n).length = n := by
  induction n with
  | zero => intro lo; rfl
  | succ k ih => intro lo; simp [intRange, ih]

theorem mem_intRange (n : ℕ) : ∀ lo s, s ∈ intRange lo n ↔ lo ≤ s ∧ s < lo + n := by
  induction n with
  | zero => intro lo s; simp [intRange]
  | succ k ih => intro lo s; simp [intRange, ih]; omega

theorem intRange_pairwise (n : ℕ) : ∀ lo, (intRange lo n).Pairwise (· < ·) := by
  induction n with
  | zero => intro lo; exact List.Pairwise.nil
  | succ k ih =>
    intro lo
    refine List.Pairwise.cons ?_ (ih (lo + 1))
    intro x hx
    have := (mem_intRange k (lo + 1) x).1 hx
    omega

theorem definedEntries_eq_nil (l : List (ℤ × Option ℚ))
    (h : ∀ p ∈ l, p.2 = none) : definedEntries l = [] := by
  induction l with
  | nil => rfl
  | cons p t ih =>
    obtain ⟨s, v⟩ := p
    have hv : v = none := h (s, v) (List.mem_cons_self _ _)
    subst hv
    exact ih fun q hq => h q (List.mem_cons_of_mem _ hq)

theorem firstIdxMax_eq_none (l : List (ℤ × Option ℚ))
    (h : ∀ p ∈ l, p.2 = none) : firstIdxMax l = none := by
  unfold firstIdxMax
  rw [definedEntries_eq_nil l h]

theorem foldlMax_ge_init (t : List (ℤ × ℚ)) :
    ∀ a : ℚ, a ≤ t.foldl (fun x p => max x p.2) a := by
  induction t with
  | nil => intro a; exact le_refl a
  | cons h tl ih =>
    intro a
    rw [List.foldl_cons]
    exact le_trans (le_max_left a h.2) (ih (max a h.2))

theorem foldlMax_ge_mem (t : List (ℤ × ℚ)) :
    ∀ a : ℚ, ∀ q ∈ t, q.2 ≤ t.foldl (fun x p => max x p.2) a := by
  induction t with
  | nil => intro a q hq; cases hq
  | cons h tl ih =>
    intro a q hq
    rw [List.foldl_cons]
    rcases List.mem_cons.1 hq with rfl | hq'
    · exact le_trans (le_max_right a q.2) (foldlMax_ge_init tl (max a q.2))
    · exact ih (max a h.2) q hq'

theorem foldlMax_eq_init_or_mem (t : List (ℤ × ℚ)) :
    ∀ a : ℚ, t.foldl (fun x p => max x p.2) a = a
      ∨ ∃ q ∈ t, t.foldl (fun x p => max x p.2) a = q.2 := by
  induction t with
  | nil => intro a; exact Or.inl rfl
  | cons h tl ih =>
    intro a
    rw [List.foldl_cons]
    rcases ih (max a h.2) with heq | ⟨q, hq, heq⟩
    · rcases max_choice a h.2 with hm | hm
      · exact Or.inl (heq.trans hm)
      · exact Or.inr ⟨h, List.mem_cons_self _ _, heq.trans hm⟩
    · exact Or.inr ⟨q, List.mem_cons_of_mem _ hq, heq⟩

theorem findFirstEq_split (l : List (ℤ × ℚ)) (M : ℚ) (b : ℤ)
    (h : findFirstEq l M = some b) :
    ∃ l1 l2, l = l1 ++ ((b, M) : ℤ × ℚ) :: l2 ∧ ∀ x ∈ l1, x.2 ≠ M := by
  induction l with
  | nil => exact absurd h (by simp [findFirstEq])
  | cons p t ih =>
    unfold findFirstEq at h
    by_cases hp : p.2 = M
    · rw [if_pos hp] at h
      have hb : p.1 = b := Option.some.inj h
      refine ⟨[], t, ?_, by intro x hx; cases hx⟩
      rw [List.nil_append]
      have : p = (b, M) := Prod.ext hb hp
      rw [this]
    · rw [if_neg hp] at h
      obtain ⟨l1, l2, hsplit, hne⟩ := ih h
      refine ⟨p :: l1, l2, by rw [hsplit, List.cons_append], ?_⟩
      intro x hx
      rcases List.mem_cons.1 hx with rfl | hx'
      · exact hp
      · exact hne x hx'

theorem mem_definedEntries (l : List (ℤ × Option ℚ)) (s : ℤ) (v : ℚ) :
    (s, v) ∈ definedEntries l ↔ (s, some v) ∈ l := by
  induction l with
  | nil => simp [definedEntries]
  | cons p t ih =>
    obtain ⟨ps, pv⟩ := p
    cases pv with
    | none => simp [definedEntries, ih]
    | some w => simp [definedEntries, List.mem_cons, ih, Prod.ext_iff]

theorem definedEntries_pairwise_fst (l : List (ℤ × Option ℚ))
    (h : l.Pairwise (fun a c => a.1 < c.1)) :
    (definedEntries l).Pairwise (fun a c => a.1 < c.1) := by
  induction l with
  | nil => exact List.Pairwise.nil
  | cons p t ih =>
    obtain ⟨hp, ht'⟩ := List.pairwise_cons.1 h
    obtain ⟨ps, pv⟩ := p
    cases pv with
    | none => exact ih ht'
    | some w =>
      refine List.Pairwise.cons ?_ (ih ht')
      intro x hx
      have hx' : (x.1, some x.2) ∈ t := (mem_definedEntries t x.1 x.2).1 hx
      exact hp _ hx'

theorem firstIdxMax_spec (l : List (ℤ × Option ℚ))
    (hsort : l.Pairwise (fun a c => a.1 < c.1)) (b : ℤ)
    (hb : firstIdxMax l = some b) :
    ∃ v, (b, some v) ∈ l
      ∧ (∀ p ∈ l, ∀ u, p.2 = some u → u ≤ v)
      ∧ (∀ p ∈ l, p.2 = some v → b ≤ p.1) := by
  unfold firstIdxMax at hb
  rcases hDcases : definedEntries l with _ | ⟨h, t⟩
  · rw [hDcases] at hb
    exact absurd hb (by simp)
  · rw [hDcases] at hb
    obtain ⟨l1, l2, hsplit, hne⟩ := findFirstEq_split _ _ _ hb
    have hmemD : ((b, t.foldl (fun a p => max a p.2) h.2) : ℤ × ℚ)
        ∈ definedEntries l := by
      rw [hDcases, hsplit]
      exact List.mem_append.2 (Or.inr (List.mem_cons_self _ _))
    refine ⟨t.foldl (fun a p => max a p.2) h.2,
      (mem_definedEntries _ _ _).1 hmemD, ?_, ?_⟩
    · intro p hp u hu
      have hpD : ((p.1, u) : ℤ × ℚ) ∈ definedEntries l := by
        refine (mem_definedEntries _ _ _).2 ?_
        have : p = (p.1, some u) := Prod.ext rfl hu
        rw [← this]
        exact hp
      rw [hDcases] at hpD
      rcases List.mem_cons.1 hpD with heq | hmem'
      · have : u = h.2 := congrArg Prod.snd heq
        rw [this]
        exact foldlMax_ge_init t h.2
      · exact foldlMax_ge_mem t h.2 _ hmem'
    · intro p hp hpv
      have hpD : ((p.1, t.foldl (fun a p => max a p.2) h.2) : ℤ × ℚ)
          ∈ definedEntries l := by
        refine (mem_definedEntries _ _ _).2 ?_
        have : p = (p.1, some (t.foldl (fun a p => max a p.2) h.2)) :=
          Prod.ext rfl hpv
        rw [← this]
        exact hp
      have hDp : (definedEntries l).Pairwise (fun a c => a.1 < c.1) :=
        definedEntries_pairwise_fst l hsort
      rw [hDcases, hsplit] at hpD hDp
      rcases List.mem_append.1 hpD with h1 | h2
      · exact absurd rfl (hne _ h1)
      · have htail := (List.pairwise_append.1 hDp).2.1
        rcases List.mem_cons.1 h2 with heq | h3
        · have : b = p.1 := (congrArg Prod.fst heq).symm
          omega
        · have hlt := (List.pairwise_cons.1 htail).1 _ h3
          omega

theorem list_sum_map_eq_fin_sum (l : List (ℚ × ℚ)) (f : (ℚ × ℚ) → ℚ) :
    (l.map f).sum = ∑ i : Fin l.length, f (l[(i : ℕ)]) := by
  rw [← List.ofFn_getElem_eq_map l f, List.sum_ofFn]

theorem centered_sum (l : List (ℚ × ℚ)) (f g : (ℚ × ℚ) → ℚ) :
    (∑ i : Fin l.length,
        (((l.length : ℚ) * f (l[(i : ℕ)]) - (l.map f).sum)
          * ((l.length : ℚ) * g (l[(i : ℕ)]) - (l.map g).sum)))
      = (l.length : ℚ) * ((l.length : ℚ) * (l.map fun p => f p * g p).sum
          - (l.map f).sum * (l.map g).sum) := by
  rw [list_sum_map_eq_fin_sum l f, list_sum_map_eq_fin_sum l g,
    list_sum_map_eq_fin_sum l (fun p => f p * g p)]
  have expand : ∀ i : Fin l.length,
      (((l.length : ℚ) * f (l[(i : ℕ)]) - ∑ j : Fin l.length, f (l[(j : ℕ)]))
        * ((l.length : ℚ) * g (l[(i : ℕ)]) - ∑ j : Fin l.length, g (l[(j : ℕ)])))
      = (l.length : ℚ) ^ 2 * (f (l[(i : ℕ)]) * g (l[(i : ℕ)]))
          - ((l.length : ℚ) * (∑ j : Fin l.length, g (l[(j : ℕ)]))) * f (l[(i : ℕ)])
          - (((l.length : ℚ) * (∑ j : Fin l.length, f (l[(j : ℕ)]))) * g (l[(i : ℕ)])
            - (∑ j : Fin l.length, f (l[(j : ℕ)]))
                * (∑ j : Fin l.length, g (l[(j : ℕ)]))) := by
    intro i
    ring
  rw [Finset.sum_congr rfl fun i _ => expand i]
  simp only [Finset.sum_sub_distrib, ← Finset.mul_sum, Finset.sum_const,
    Finset.card_univ, Fintype.card_fin, nsmul_eq_mul]
  ring

theorem covS_sq_le (pts : List (ℚ × ℚ)) :
    covS pts ^ 2 ≤ varxS pts * varyS pts := by
  rcases Nat.eq_zero_or_pos pts.length with h0 | hpos
  · have hnil : pts = [] := List.length_eq_zero.1 h0
    subst hnil
    simp [covS, varxS, varyS]
  · have hx2 : (fun p : ℚ × ℚ => p.1 ^ 2) = fun p : ℚ × ℚ => p.1 * p.1 := by
      funext p
      ring
    have hy2 : (fun p : ℚ × ℚ => p.2 ^ 2) = fun p : ℚ × ℚ => p.2 * p.2 := by
      funext p
      ring
    have key := Finset.sum_mul_sq_le_sq_mul_sq Finset.univ
      (fun i : Fin pts.length =>
        (pts.length : ℚ) * (pts[(i : ℕ)]).1 - (pts.map fun p => p.1).sum)
      (fun i : Fin pts.length =>
        (pts.length : ℚ) * (pts[(i : ℕ)]).2 - (pts.map fun p => p.2).sum)
    have hsq : ∀ q : ℚ, q ^ 2 = q * q := fun q => sq q
    simp only [hsq] at key
    rw [centered_sum pts (fun p => p.1) (fun p => p.2),
      centered_sum pts (fun p => p.1) (fun p => p.1),
      centered_sum pts (fun p => p.2) (fun p => p.2)] at key
    have hcov : (pts.length : ℚ) * (pts.map fun p => p.1 * p.2).sum
        - (pts.map fun p => p.1).sum * (pts.map fun p => p.2).sum = covS pts := rfl
    have hvx : (pts.length : ℚ) * (pts.map fun p => p.1 * p.1).sum
        - (pts.map fun p => p.1).sum * (pts.map fun p => p.1).sum = varxS pts := by
      unfold varxS
      rw [hx2]
      ring
    have hvy : (pts.length : ℚ) * (pts.map fun p => p.2 * p.2).sum
        - (pts.map fun p => p.2).sum * (pts.map fun p => p.2).sum = varyS pts := by
      unfold varyS
      rw [hy2]
      ring
    rw [hcov, hvx, hvy] at key
    have hn : (0 : ℚ) < (pts.length : ℚ) := by positivity
    have hn2 : (0 : ℚ) < (pts.length : ℚ) ^ 2 := by positivity
    have key2 : (pts.length : ℚ) ^ 2 * (covS pts * covS pts)
        ≤ (pts.length : ℚ) ^ 2 * (varxS pts * varyS pts) := by
      nlinarith [key]
    have := le_of_mul_le_mul_left key2 hn2
    nlinarith [this]

theorem varxS_nonneg (pts : List (ℚ × ℚ)) : 0 ≤ varxS pts := by
  rcases Nat.eq_zero_or_pos pts.length with h0 | hpos
  · have hnil : pts = [] := List.length_eq_zero.1 h0
    subst hnil
    simp [varxS]
  · have key := centered_sum pts (fun p => p.1) (fun p => p.1)
    have hsum : 0 ≤ ∑ i : Fin pts.length,
        (((pts.length : ℚ) * (pts[(i : ℕ)]).1 - (pts.map fun p => p.1).sum)
          * ((pts.length : ℚ) * (pts[(i : ℕ)]).1 - (pts.map fun p => p.1).sum)) :=
      Finset.sum_nonneg fun i _ => mul_self_nonneg _
    rw [key] at hsum
    have hvx : (pts.length : ℚ) * (pts.map fun p => p.1 * p.1).sum
        - (pts.map fun p => p.1).sum * (pts.map fun p => p.1).sum = varxS pts := by
      unfold varxS
      have hx2 : (fun p : ℚ × ℚ => p.1 ^ 2) = fun p : ℚ × ℚ => p.1 * p.1 := by
        funext p
        ring
      rw [hx2]
      ring
    rw [hvx] at hsum
    have hn : (0 : ℚ) < (pts.length : ℚ) := by positivity
    nlinarith [hsum]

theorem varyS_nonneg (pts : List (ℚ × ℚ)) : 0 ≤ varyS pts := by
  rcases Nat.eq_zero_or_pos pts.length with h0 | hpos
  · have hnil : pts = [] := List.length_eq_zero.1 h0
    subst hnil
    simp [varyS]
  · have key := centered_sum pts (fun p => p.2) (fun p => p.2)
    have hsum : 0 ≤ ∑ i : Fin pts.length,
        (((pts.length : ℚ) * (pts[(i : ℕ)]).2 - (pts.map fun p => p.2).sum)
          * ((pts.length : ℚ) * (pts[(i : ℕ)]).2 - (pts.map fun p => p.2).sum)) :=
      Finset.sum_nonneg fun i _ => mul_self_nonneg _
    rw [key] at hsum
    have hvy : (pts.length : ℚ) * (pts.map fun p => p.2 * p.2).sum
        - (pts.map fun p => p.2).sum * (pts.map fun p => p.2).sum = varyS pts := by
      unfold varyS
      have hy2 : (fun p : ℚ × ℚ => p.2 ^ 2) = fun p : ℚ × ℚ => p.2 * p.2 := by
        funext p
        ring
      rw [hy2]
      ring
    rw [hvy] at hsum
    have hn : (0 : ℚ) < (pts.length : ℚ) := by positivity
    nlinarith [hsum]

theorem corrSq_mem_unit (pts : List (ℚ × ℚ)) (v : ℚ)
    (h : corrSq pts = some v) : 0 ≤ v ∧ v ≤ 1 := by
  unfold corrSq at h
  by_cases h1 : pts.length < 2
  · rw [if_pos h1] at h
    exact absurd h (by simp)
  · rw [if_neg h1] at h
    by_cases h2 : varxS pts = 0 ∨ varyS pts = 0
    · rw [if_pos h2] at h
      exact absurd h (by simp)
    · rw [if_neg h2] at h
      have hv := Option.some.inj h
      push_neg at h2
      have hx : 0 < varxS pts := lt_of_le_of_ne (varxS_nonneg pts) (Ne.symm h2.1)
      have hy : 0 < varyS pts := lt_of_le_of_ne (varyS_nonneg pts) (Ne.symm h2.2)
      constructor
      · rw [← hv]
        exact div_nonneg (sq_nonneg _) (le_of_lt (mul_pos hx hy))
      · rw [← hv, div_le_one (mul_pos hx hy)]
        exact covS_sq_le pts

/-! ## Claim theorems -/

/-- C1 (counterexample): two paired observations have occurred by `t = 1`
in the 2-row frame `df2` with constant Leading column, yet the cumulative
cell is undefined (zero variance makes the Pearson correlation `NaN`), so
"defined exactly when at least 2 paired observations have occurred" fails
in the "exactly" direction. -/
theorem c1_cumulative_cex :
    cumulativeCell df2 0 1 = none ∧ (cumPairs df2 0 1).length = 2 := by
  norm_num [cumulativeCell, cumPairs, shiftedPairs, leadCol, targetCol, shiftList,
    pairedOf, corrSq, varxS, varyS, covS, df2]

/-- C1 (amended): for every shift in range and timestamp on the frame's axis,
the Cumulative Tracker's column for that shift is in the matrix, the cell at
`t` is the (squared-)Pearson correlation of exactly the paired rows from the
first timestamp through `t` inclusive, and the cell is defined exactly when
at least 2 such paired observations have occurred by `t` *and* neither column
is constant over those rows (so the correlation itself is defined). -/
theorem c1_cumulative_contract (df : Frame) (m s : ℤ) (t : ℕ)
    (hs : s ∈ shiftsToTest m) (ht : t < df.length) :
    (s, (List.range df.length).map fun u => cumulativeCell df s u)
        ∈ calculate_cumulative_correlations df m
    ∧ ((List.range df.length).map fun u => cumulativeCell df s u)[t]?
        = some (cumulativeCell df s t)
    ∧ cumulativeCell df s t = corrSq (cumPairs df s t)
    ∧ ((cumulativeCell df s t).isSome ↔
        2 ≤ (cumPairs df s t).length
          ∧ ¬ varxS (cumPairs df s t) = 0 ∧ ¬ varyS (cumPairs df s t) = 0) := by
  refine ⟨List.mem_map.2 ⟨s, hs, rfl⟩, ?_, ?_, ?_⟩
  · rw [List.getElem?_map, List.getElem?_range ht]
    rfl
  · unfold cumulativeCell
    by_cases h : 2 ≤ (cumPairs df s t).length
    · rw [if_pos h]
    · rw [if_neg h]
      unfold corrSq
      rw [if_pos (by omega)]
  · unfold cumulativeCell corrSq
    by_cases h1 : 2 ≤ (cumPairs df s t).length
    · rw [if_pos h1, if_neg (by omega)]
      by_cases h2 : varxS (cumPairs df s t) = 0 ∨ varyS (cumPairs df s t) = 0
      · rw [if_pos h2]
        simp only [Option.isSome_none, Bool.false_eq_true, false_iff]
        tauto
      · rw [if_neg h2]
        push_neg at h2
        simp only [Option.isSome_some, true_iff]
        exact ⟨h1, h2.1, h2.2⟩
    · rw [if_neg h1]
      simp only [Option.isSome_none, Bool.false_eq_true, false_iff]
      tauto

/-- C1 (witness for the amended theorem): instantiated at the 3-row frame
`df1`, shift 0, timestamp 1. -/
theorem c1_cumulative_witness :
    ((0 : ℤ), (List.range df1.length).map fun u => cumulativeCell df1 0 u)
        ∈ calculate_cumulative_correlations df1 1
    ∧ ((List.range df1.length).map fun u => cumulativeCell df1 0 u)[1]?
        = some (cumulativeCell df1 0 1)
    ∧ cumulativeCell df1 0 1 = corrSq (cumPairs df1 0 1)
    ∧ ((cumulativeCell df1 0 1).isSome ↔
        2 ≤ (cumPairs df1 0 1).length
          ∧ ¬ varxS (cumPairs df1 0 1) = 0 ∧ ¬ varyS (cumPairs df1 0 1) = 0) :=
  c1_cumulative_contract df1 1 0 1 (by decide) (by decide)

/-- C2 (counterexample): on `df4` with `maxShift = 2` the static table ties at
the maximum `R² = 1` for shifts `-2`, `1` and `2`; the code (pandas `idxmax`)
returns `-2`, the first maximiser in table order, while the spec's tie-break
(smallest absolute shift among the maximisers) selects `1`. -/
theorem c2_tiebreak_cex :
    find_optimal_lead_lag df4 2 = some (some (-2), resultsTable df4 2)
    ∧ (resultsTable df4 2).map Prod.snd
        = [some 1, some (27/28), some (289/295), some 1, some 1]
    ∧ specTieBreakBestShift (resultsTable df4 2) = some 1
    ∧ ((-2 : ℤ) ≠ 1) := by
  have hs : shiftsToTest 2 = [-2, -1, 0, 1, 2] := by decide
  have htbl : resultsTable df4 2
      = [(-2, some 1), (-1, some (27/28)), (0, some (289/295)),
          (1, some 1), (2, some 1)] := by
    norm_num [resultsTable, hs, pairedRows, leadCol, targetCol, shiftList,
      pairedOf, corrSq, varxS, varyS, covS, df4]
  refine ⟨?_, ?_, ?_, by decide⟩
  · unfold find_optimal_lead_lag
    rw [if_neg (by decide), htbl]
    norm_num [firstIdxMax, definedEntries, findFirstEq, max_def]
  · rw [htbl]
    norm_num
  · rw [htbl]
    norm_num [specTieBreakBestShift, definedEntries]

/-- C2 (amended): whenever the static scorer returns a best shift, that shift
carries a defined `R²` which is maximal among all defined `R²` values, and
among the shifts attaining the maximum the returned one is the *smallest
shift value* (the first in increasing table order, i.e. the most negative) —
not the smallest in absolute value. -/
theorem c2_selection (df : Frame) (m : ℤ) (b : ℤ)
    (tbl : List (ℤ × Option ℚ))
    (h : find_optimal_lead_lag df m = some (some b, tbl)) :
    ∃ v, (b, some v) ∈ tbl
      ∧ (∀ p ∈ tbl, ∀ u, p.2 = some u → u ≤ v)
      ∧ (∀ p ∈ tbl, p.2 = some v → b ≤ p.1) := by
  unfold find_optimal_lead_lag at h
  by_cases hm : m < 0
  · rw [if_pos hm] at h
    exact absurd h (by simp)
  · rw [if_neg hm] at h
    have hpair := Option.some.inj h
    have hfim : firstIdxMax (resultsTable df m) = some b :=
      congrArg Prod.fst hpair
    have htbl : resultsTable df m = tbl := congrArg Prod.snd hpair
    subst htbl
    have hsort : (resultsTable df m).Pairwise (fun a c => a.1 < c.1) := by
      unfold resultsTable
      rw [List.pairwise_map]
      exact List.Pairwise.imp (fun hab => hab)
        (by unfold shiftsToTest; exact intRange_pairwise _ _)
    exact firstIdxMax_spec _ hsort b hfim

/-- C2 (witness for the amended theorem): on `df4` with `maxShift = 2` the
returned shift `-2` has the maximal `R² = 1` and is the least shift among the
maximisers. -/
theorem c2_selection_witness :
    ∃ v, ((-2 : ℤ), some v) ∈ resultsTable df4 2
      ∧ (∀ p ∈ resultsTable df4 2, ∀ u, p.2 = some u → u ≤ v)
      ∧ (∀ p ∈ resultsTable df4 2, p.2 = some v → (-2 : ℤ) ≤ p.1) :=
  c2_selection df4 2 (-2) (resultsTable df4 2) (by
    have hs : shiftsToTest 2 = [-2, -1, 0, 1, 2] := by decide
    have htbl : resultsTable df4 2
        = [(-2, some 1), (-1, some (27/28)), (0, some (289/295)),
            (1, some 1), (2, some 1)] := by
      norm_num [resultsTable, hs, pairedRows, leadCol, targetCol, shiftList,
        pairedOf, corrSq, varxS, varyS, covS, df4]
    unfold find_optimal_lead_lag
    rw [if_neg (by decide), htbl]
    norm_num [firstIdxMax, definedEntries, findFirstEq, max_def])

/-- C3 (code bug, evaluated): with `window = 12` the code requires
`int(12*0.9) = 10` paired observations, not `ceil(0.9*12) = 11` as the spec
and the code's own comment ("at least 90% of window") demand: on the dense
12-row frame `df12` at shift 2, the trailing 12-window at the last timestamp
holds exactly 10 paired rows — 83% of the window — and the code still emits a
defined cell. -/
theorem c3_floor_threshold_bug :
    minPeriodsRequired 12 = 10
    ∧ ⌈(9 : ℚ) * 12 / 10⌉₊ = 11
    ∧ (windowPairs df12 2 12 11).length = 10
    ∧ rollingCell df12 2 12 11 = some 1 := by
  refine ⟨by decide, ?_, ?_, ?_⟩
  · rw [Nat.ceil_eq_iff (by norm_num)]
    norm_num
  · norm_num [windowPairs, shiftedPairs, leadCol, targetCol, shiftList,
      pairedOf, df12]
  · norm_num [rollingCell, minPeriodsRequired, windowPairs, shiftedPairs,
      leadCol, targetCol, shiftList, pairedOf, corrSq, varxS, varyS, covS, df12]

/-- C4 (counterexample): a monthly Leading series against a quarterly Target
series — both frequencies detected, differing, monthly strictly finer in the
order D < B < W < M < Q < A — yet the CLI aligner leaves both series
unchanged: the pair matches neither weekly-vs-monthly special case, and
`to_offset('M').nanos` raises (no fixed duration), which main.py catches by
skipping resampling.  The claim requires the monthly series to be resampled
onto the quarterly grid (which would give `[(2, 3)]` here). -/
theorem c4_aligner_cex :
    mainAlign calMQ (some "M") (some "Q-DEC") lmSeries tqSeries
        = (lmSeries, tqSeries)
    ∧ freqOrder (getBaseCode "M") = some 4
    ∧ freqOrder (getBaseCode "Q-DEC") = some 5
    ∧ resampleLast (calMQ.periodId "Q-DEC") (calMQ.periodLabel "Q-DEC") lmSeries
        = [(2, 3)]
    ∧ ([((2 : ℤ), (3 : ℚ))] : Series) ≠ lmSeries := by
  decide

/-- C4 (amended, GUI aligner): when both frequencies are detected, differ,
and both base codes rank in the order D < B < W < M < Q < A, the GUI aligner
resamples the finer series onto the coarser series' own grid and leaves the
coarser series unchanged; every resampled entry is the grid label of a source
period paired with the *last* source observation in that period. -/
theorem c4_aligner_contract (cal : Calendar) (fl ft : String)
    (lead target : Series) (rl rt : ℕ) (hne : fl ≠ ft)
    (hl : freqOrder (getBaseCode fl) = some rl)
    (ht : freqOrder (getBaseCode ft) = some rt) :
    (rl < rt → appAlign cal (some fl) (some ft) lead target
        = (resampleLast (cal.periodId ft) (cal.periodLabel ft) lead, target))
    ∧ (rt < rl → appAlign cal (some fl) (some ft) lead target
        = (lead, resampleLast (cal.periodId fl) (cal.periodLabel fl) target))
    ∧ ∀ q ∈ resampleLast (cal.periodId ft) (cal.periodLabel ft) lead,
        ∃ b p, q.1 = cal.periodLabel ft b
          ∧ (lead.filter fun r => decide (cal.periodId ft r.1 = b)).getLast?
              = some p
          ∧ q.2 = p.2 := by
  refine ⟨?_, ?_, ?_⟩
  · intro hlt
    simp only [appAlign]
    rw [if_pos hne, hl, ht]
    dsimp only
    rw [if_pos hlt]
  · intro hgt
    simp only [appAlign]
    rw [if_pos hne, hl, ht]
    dsimp only
    rw [if_neg (by omega), if_pos hgt]
  · intro q hq
    unfold resampleLast at hq
    obtain ⟨b, hb, hfb⟩ := List.mem_filterMap.1 hq
    obtain ⟨p, hp, hq2⟩ := Option.map_eq_some'.1 hfb
    subst hq2
    exact ⟨b, p, rfl, hp, rfl⟩

/-- C4 (witness for the amended theorem): the GUI aligner at `fl = "M"`,
`ft = "Q-DEC"` (ranks 4 < 5) resamples the monthly series onto the quarterly
grid by last-in-period and leaves the quarterly series unchanged. -/
theorem c4_aligner_contract_witness :
    ((4 : ℕ) < 5 → appAlign calMQ (some "M") (some "Q-DEC") lmSeries tqSeries
        = (resampleLast (calMQ.periodId "Q-DEC") (calMQ.periodLabel "Q-DEC")
            lmSeries, tqSeries))
    ∧ ((5 : ℕ) < 4 → appAlign calMQ (some "M") (some "Q-DEC") lmSeries tqSeries
        = (lmSeries, resampleLast (calMQ.periodId "M") (calMQ.periodLabel "M")
            tqSeries))
    ∧ ∀ q ∈ resampleLast (calMQ.periodId "Q-DEC") (calMQ.periodLabel "Q-DEC")
        lmSeries,
        ∃ b p, q.1 = calMQ.periodLabel "Q-DEC" b
          ∧ (lmSeries.filter fun r =>
              decide (calMQ.periodId "Q-DEC" r.1 = b)).getLast? = some p
          ∧ q.2 = p.2 :=
  c4_aligner_contract calMQ "M" "Q-DEC" lmSeries tqSeries 4 5 (by decide)
    (by decide) (by decide)

/-- C5: when every candidate shift's `R²` is undefined, the static scorer
returns the "no valid shift" signal (`None` as the best shift — the
`isnull().all()` branch of `analysis.py:43-45`) and still returns the full
per-shift table for the caller to inspect. -/
theorem c5_no_valid_shift (df : Frame) (m : ℤ) (hm : 0 ≤ m)
    (hall : ∀ p ∈ resultsTable df m, p.2 = none) :
    find_optimal_lead_lag df m = some (none, resultsTable df m) := by
  unfold find_optimal_lead_lag
  rw [if_neg (not_lt.2 hm), firstIdxMax_eq_none _ hall]

/-- C5 (witness): a single-row frame leaves fewer than 2 paired rows at every
shift, so the whole table is undefined and the scorer signals `none`. -/
theorem c5_no_valid_shift_witness :
    find_optimal_lead_lag dfOne 1 = some (none, resultsTable dfOne 1) :=
  c5_no_valid_shift dfOne 1 (by decide) (by decide)

/-- C6 (counterexample): with `maxShift = 0` (and any valid window) the engine
does not reject: the static scorer proceeds, analyses the single shift 0 and
returns a successful result instead of an error signal. -/
theorem c6_no_maxshift_validation_cex :
    find_optimal_lead_lag df1 0 = some (some 0, [(0, some (27/28))])
    ∧ find_optimal_lead_lag df1 0 ≠ none := by
  have hs : shiftsToTest 0 = [0] := by decide
  have htbl : resultsTable df1 0 = [(0, some (27/28))] := by
    norm_num [resultsTable, hs, pairedRows, leadCol, targetCol, shiftList,
      pairedOf, corrSq, varxS, varyS, covS, df1]
  have h1 : find_optimal_lead_lag df1 0 = some (some 0, [(0, some (27/28))]) := by
    unfold find_optimal_lead_lag
    rw [if_neg (by decide), htbl]
    norm_num [firstIdxMax, definedEntries, findFirstEq]
  exact ⟨h1, by rw [h1]; exact Option.some_ne_none _⟩

/-- C6 (amended): `window ≤ 1` is rejected by the rolling tracker (its error
return), but `maxShift ≤ 0` is not validated anywhere in the engine: with
`maxShift = 0` the static scorer proceeds and returns a one-row table for
shift 0, and with `maxShift < 0` the scorer fails with an unstructured
`ValueError` (`min()` of an empty range) while the rolling tracker silently
returns an empty matrix. -/
theorem c6_parameter_validation (df : Frame) (w m : ℤ) :
    (w ≤ 1 → calculate_rolling_correlations df m w = none)
    ∧ ((resultsTable df 0).map Prod.fst = [0]
        ∧ find_optimal_lead_lag df 0
            = some (firstIdxMax (resultsTable df 0), resultsTable df 0))
    ∧ (m < 0 → find_optimal_lead_lag df m = none
        ∧ (2 ≤ w → df.isEmpty = false →
            calculate_rolling_correlations df m w = some [])) := by
  refine ⟨?_, ⟨?_, ?_⟩, ?_⟩
  · intro hw
    unfold calculate_rolling_correlations
    rw [if_pos hw]
  · have hmap : (resultsTable df 0).map Prod.fst = shiftsToTest 0 := by
      unfold resultsTable
      rw [List.map_map]
      exact List.map_id _
    rw [hmap]
    decide
  · unfold find_optimal_lead_lag
    rw [if_neg (by omega)]
  · intro hm
    constructor
    · unfold find_optimal_lead_lag
      rw [if_pos hm]
    · intro hw2 hne
      have hshifts : shiftsToTest m = [] := by
        unfold shiftsToTest
        have h0 : (2 * m + 1).toNat = 0 := by omega
        rw [h0]
        rfl
      unfold calculate_rolling_correlations
      rw [if_neg (by omega), if_neg (by simp [hne]), hshifts]
      rfl

/-- C6 (witness for the amended theorem): `window = 1` is rejected by the
rolling tracker; `maxShift = -1` makes the scorer fail. -/
theorem c6_parameter_validation_witness :
    calculate_rolling_correlations df1 (-1) 1 = none
    ∧ find_optimal_lead_lag df1 (-1) = none :=
  ⟨(c6_parameter_validation df1 1 (-1)).1 (by decide),
    ((c6_parameter_validation df1 1 (-1)).2.2 (by decide)).1⟩

/-- C7 (counterexample): shifting a fully dense 2-row frame by `s = 3` drops
2 rows, not `|s| = 3`: the boundary loss is `min |s| n`, which differs from
`|s|` whenever `|s|` exceeds the frame length. -/
theorem c7_boundary_cex :
    pairedRows (shiftList 3 [some 1, some 2]) [some 3, some 4] = []
    ∧ ([(1 : ℚ), 2].length
        - (pairedRows (shiftList 3 [some 1, some 2]) [some 3, some 4]).length) = 2
    ∧ (2 : ℕ) ≠ (3 : ℤ).natAbs := by
  decide

/-- C7 (amended): on a dense frame, shifting the Leading column by `s`
relocates the value at row `j` to row `j + s` — after pairing, the surviving
rows are exactly `(lead j, target (j + s))` for `s ≥ 0` (symmetrically for
`s < 0`) — missing values appear only at the `min |s| n` boundary rows, so
exactly `min |s| n` rows (not always `|s|`) are dropped by the pairing, and
the slice characterisation shows nothing wraps and nothing is duplicated. -/
theorem c7_shift_relocation (lead tgt : List ℚ) (s : ℤ)
    (hlen : tgt.length = lead.length) :
    (0 ≤ s → pairedRows (shiftList s (lead.map some)) (tgt.map some)
        = (lead.take (lead.length - s.toNat)).zip (tgt.drop s.toNat))
    ∧ (s < 0 → pairedRows (shiftList s (lead.map some)) (tgt.map some)
        = (lead.drop s.natAbs).zip tgt)
    ∧ (pairedRows (shiftList s (lead.map some)) (tgt.map some)).length
        = lead.length - min s.natAbs lead.length := by
  have hmaplen : (lead.map some).length = lead.length := List.length_map _ _
  have hpos : 0 ≤ s → pairedRows (shiftList s (lead.map some)) (tgt.map some)
      = (lead.take (lead.length - s.toNat)).zip (tgt.drop s.toNat) := by
    intro hs
    have hsl : shiftList s (lead.map some)
        = List.replicate (min s.toNat lead.length) none
            ++ (lead.take (lead.length - s.toNat)).map some := by
      unfold shiftList
      rw [if_pos hs, hmaplen, List.map_take]
    rw [hsl, pairedRows_rep_none_left, ← List.map_drop, pairedRows_map_some]
    by_cases hk : s.toNat ≤ lead.length
    · rw [min_eq_left hk]
    · have h0 : lead.length - s.toNat = 0 := by omega
      rw [h0, List.take_zero, List.zip_nil_left, List.zip_nil_left]
  have hneg : s < 0 → pairedRows (shiftList s (lead.map some)) (tgt.map some)
      = (lead.drop s.natAbs).zip tgt := by
    intro hs
    have hsl : shiftList s (lead.map some)
        = (lead.drop s.natAbs).map some
            ++ List.replicate (min s.natAbs lead.length) none := by
      unfold shiftList
      rw [if_neg (by omega), hmaplen, List.map_drop]
    rw [hsl, pairedRows_append_rep_right, pairedRows_map_some]
  refine ⟨hpos, hneg, ?_⟩
  by_cases hs : 0 ≤ s
  · rw [hpos hs, List.length_zip, List.length_take, List.length_drop, hlen]
    have habs : s.natAbs = s.toNat := by omega
    rw [habs]
    omega
  · push_neg at hs
    rw [hneg hs, List.length_zip, List.length_drop, hlen]
    omega

/-- C7 (witness for the amended theorem): instantiated at the dense rows
`lead = [1,2,3]`, `target = [4,5,6]` with shift `s = 1`: the pairing keeps
`(1,5)` and `(2,6)` and drops exactly `min 1 3 = 1` row. -/
theorem c7_shift_relocation_witness :
    (0 ≤ (1 : ℤ) → pairedRows (shiftList 1 ([(1 : ℚ), 2, 3].map some))
        ([(4 : ℚ), 5, 6].map some)
        = ([(1 : ℚ), 2, 3].take ([(1 : ℚ), 2, 3].length - (1 : ℤ).toNat)).zip
            ([(4 : ℚ), 5, 6].drop (1 : ℤ).toNat))
    ∧ ((1 : ℤ) < 0 → pairedRows (shiftList 1 ([(1 : ℚ), 2, 3].map some))
        ([(4 : ℚ), 5, 6].map some)
        = ([(1 : ℚ), 2, 3].drop (1 : ℤ).natAbs).zip [(4 : ℚ), 5, 6])
    ∧ (pairedRows (shiftList 1 ([(1 : ℚ), 2, 3].map some))
        ([(4 : ℚ), 5, 6].map some)).length
        = [(1 : ℚ), 2, 3].length - min (1 : ℤ).natAbs [(1 : ℚ), 2, 3].length :=
  c7_shift_relocation [1, 2, 3] [4, 5, 6] 1 rfl

/-- C8 (code bug, evaluated): the CLI parses `--exclude-period` but never
filters by it — the series reaching the aligner still contains the row
`(90, 7)` inside the excluded interval `[59, 120]` — whereas the GUI's filter
(which supports a single interval) removes exactly the in-interval rows with
inclusive endpoints. -/
theorem c8_exclusion_bug :
    mainApplyExclusions [(59, 120)] dSeries = dSeries
    ∧ ((90 : ℤ), (7 : ℚ)) ∈ dSeries
    ∧ (59 : ℤ) ≤ 90 ∧ (90 : ℤ) ≤ 120
    ∧ appExcludeFilter 59 120 dSeries = [(50, 1), (130, 3)] := by
  decide

/-- C9: every defined `R²` entry of the static scorer's per-shift table lies
in `[0, 1]` (Cauchy–Schwarz: the squared scaled covariance is at most the
product of the scaled variances, which are positive whenever the entry is
defined). -/
theorem c9_r2_bounded (df : Frame) (m : ℤ) (p : ℤ × Option ℚ) (v : ℚ)
    (hp : p ∈ resultsTable df m) (hv : p.2 = some v) : 0 ≤ v ∧ v ≤ 1 := by
  unfold resultsTable at hp
  obtain ⟨s, hs, hps⟩ := List.mem_map.1 hp
  have hsnd : p.2 = corrSq (pairedRows (shiftList s (leadCol df))
      (targetCol df)) := by
    rw [← hps]
  rw [hsnd] at hv
  exact corrSq_mem_unit _ v hv

/-- C9 (witness): the single defined entry of `df1`'s table at `maxShift = 0`
has `R² = 27/28 ∈ [0, 1]`. -/
theorem c9_r2_bounded_witness : 0 ≤ (27/28 : ℚ) ∧ (27/28 : ℚ) ≤ 1 :=
  c9_r2_bounded df1 0 (0, some (27/28)) (27/28)
    (by
      have hs : shiftsToTest 0 = [0] := by decide
      have htbl : resultsTable df1 0 = [(0, some (27/28))] := by
        norm_num [resultsTable, hs, pairedRows, leadCol, targetCol, shiftList,
          pairedOf, corrSq, varxS, varyS, covS, df1]
      rw [htbl]
      exact List.mem_cons_self _ _)
    rfl

/-- C10: for every frame and `maxShift ≥ 1` the scorer returns (in both the
all-undefined and the normal branch) the per-shift table with exactly
`2·maxShift + 1` rows, whose shifts are `-maxShift, …, maxShift` in strictly
increasing order. -/
theorem c10_table_shape (df : Frame) (m : ℤ) (hm : 1 ≤ m) :
    find_optimal_lead_lag df m
        = some (firstIdxMax (resultsTable df m), resultsTable df m)
    ∧ (resultsTable df m).length = 2 * m.toNat + 1
    ∧ (resultsTable df m).map Prod.fst = shiftsToTest m
    ∧ List.Pairwise (· < ·) ((resultsTable df m).map Prod.fst)
    ∧ (∀ s : ℤ, s ∈ (resultsTable df m).map Prod.fst ↔ -m ≤ s ∧ s ≤ m) := by
  have hmap : (resultsTable df m).map Prod.fst = shiftsToTest m := by
    unfold resultsTable
    rw [List.map_map]
    exact List.map_id _
  refine ⟨?_, ?_, hmap, ?_, ?_⟩
  · unfold find_optimal_lead_lag
    rw [if_neg (by omega)]
  · have h1 : (resultsTable df m).length = (shiftsToTest m).length := by
      rw [← hmap, List.length_map]
    rw [h1]
    unfold shiftsToTest
    rw [intRange_length]
    omega
  · rw [hmap]
    exact intRange_pairwise _ _
  · intro s
    rw [hmap]
    unfold shiftsToTest
    rw [mem_intRange]
    omega

/-- C10 (witness): instantiated at the 3-row frame `df1` with `maxShift = 1`. -/
theorem c10_table_shape_witness :
    find_optimal_lead_lag df1 1
        = some (firstIdxMax (resultsTable df1 1), resultsTable df1 1)
    ∧ (resultsTable df1 1).length = 2 * (1 : ℤ).toNat + 1
    ∧ (resultsTable df1 1).map Prod.fst = shiftsToTest 1
    ∧ List.Pairwise (· < ·) ((resultsTable df1 1).map Prod.fst)
    ∧ (∀ s : ℤ, s ∈ (resultsTable df1 1).map Prod.fst ↔ -1 ≤ s ∧ s ≤ 1) :=
  c10_table_shape df1 1 (by decide)

end RegressionProj
